import Mathlib

/-!
Verification of the doxcer documentation generator (Rust) against its
natural-language specification.

The embedding is shallow: the relevant Rust functions from src/main.rs and
src/fetch_definitions.rs are translated into executable Lean definitions.
Strings are modelled through their character lists (in this Lean version a
String is definitionally a structure holding a List Char); Rust's str::lines
iterator, str::trim family and String pushes are modelled by explicit
recursive functions over List Char.  Filesystem paths are modelled by their
list of components (Rust Path::components), with empty and "." components
normalized away as Rust does.  Fallible code returns Option or Except.
-/

namespace Doxcer

/-- Rust char::is_whitespace: true exactly on the Unicode White_Space code
points (U+0009..U+000D, U+0020, U+0085, U+00A0, U+1680, U+2000..U+200A,
U+2028, U+2029, U+202F, U+205F, U+3000). -/
def rustIsWhitespace (c : Char) : Bool :=
  let n := c.toNat
  (0x09 ≤ n && n ≤ 0x0D) || n = 0x20 || n = 0x85 || n = 0xA0 || n = 0x1680 ||
    (0x2000 ≤ n && n ≤ 0x200A) || n = 0x2028 || n = 0x2029 || n = 0x202F ||
    n = 0x205F || n = 0x3000

/-- Rust str::trim_start on a character list: drop leading whitespace. -/
def rustTrimStart (l : List Char) : List Char :=
  l.dropWhile rustIsWhitespace

/-- Rust str::trim_end on a character list: drop trailing whitespace. -/
def rustTrimEnd (l : List Char) : List Char :=
  (l.reverse.dropWhile rustIsWhitespace).reverse

/-- Rust str::trim on a character list. -/
def rustTrim (l : List Char) : List Char :=
  rustTrimEnd (rustTrimStart l)

/-- Split a character list at every newline character, keeping empty pieces
(the underlying split of Rust str::lines; a list of n newlines yields n+1
pieces). -/
def splitNL : List Char → List (List Char)
  | [] => [[]]
  | c :: rest =>
    let ps := splitNL rest
    if c = '\n' then [] :: ps
    else
      match ps with
      | [] => [[c]]
      | p :: ps2 => (c :: p) :: ps2

/-- Remove one trailing carriage return, if present (Rust str::lines strips
the CR of a CRLF terminator from the line content). -/
def dropTrailingCR : List Char → List Char
  | [] => []
  | [c] => if c = '\r' then [] else [c]
  | c :: d :: rest => c :: dropTrailingCR (d :: rest)

/-- Rust str::lines on a character list: split at newlines, drop a trailing
carriage return from every newline-terminated piece, and drop the final
piece when it is empty (the final line terminator is optional). -/
def rustLines (s : List Char) : List (List Char) :=
  let ps := splitNL s
  ps.dropLast.map dropTrailingCR ++
    (match ps.getLast? with
     | some last => if last = [] then [] else [last]
     | none => [])

/-- Join lines with a single newline separator (Rust Vec::join("\n")). -/
def joinNL : List (List Char) → List Char
  | [] => []
  | [l] => l
  | l :: l2 :: rest => l ++ '\n' :: joinNL (l2 :: rest)

/-- Join lines with CRLF separators; used only to state how CRLF input is
normalized. -/
def joinCRLF : List (List Char) → List Char
  | [] => []
  | [l] => l
  | l :: l2 :: rest => l ++ '\r' :: '\n' :: joinCRLF (l2 :: rest)

/-- src/main.rs is_metadata_line: after trimming leading whitespace the line
starts with "# METADATA", "# META" or "# CELL" (plain prefix tests, in that
order). -/
def is_metadata_line (line : String) : Bool :=
  let trimmed := rustTrimStart line.data
  "# METADATA".data.isPrefixOf trimmed ||
    "# META".data.isPrefixOf trimmed ||
    "# CELL".data.isPrefixOf trimmed

/-- src/main.rs strip_notebook_metadata: keep every line that is not a
metadata line and join the kept lines with newlines. -/
def strip_notebook_metadata (source : String) : String :=
  ⟨joinNL (((rustLines source.data).filter (fun l => !is_metadata_line ⟨l⟩)))⟩

/-- A blank line in the sense of src/main.rs collapse_blank_lines:
line.trim().is_empty(). -/
def is_blank_line (l : List Char) : Bool :=
  (rustTrim l).isEmpty

/-- The loop of src/main.rs collapse_blank_lines: the boolean argument is the
previous_was_blank flag; a blank line is kept only when the previous line was
not blank. -/
def collapseAux : List (List Char) → Bool → List (List Char)
  | [], _ => []
  | l :: rest, previous_was_blank =>
    if is_blank_line l then
      if previous_was_blank then collapseAux rest true
      else l :: collapseAux rest true
    else
      l :: collapseAux rest false

/-- Line-level part of src/main.rs collapse_blank_lines (the loop started
with previous_was_blank = false). -/
def collapse_lines (ls : List (List Char)) : List (List Char) :=
  collapseAux ls false

/-- src/main.rs collapse_blank_lines: split into lines, drop every blank line
directly following a blank line, and rejoin with newlines. -/
def collapse_blank_lines (source : String) : String :=
  ⟨joinNL (collapse_lines (rustLines source.data))⟩

/-- Written from the spec's words for comparison with collapse_lines: replace
any run of consecutive blank lines with just the first line of that run,
leaving non-blank lines untouched. -/
def collapse_blank_runs_spec : List (List Char) → List (List Char)
  | [] => []
  | l :: rest =>
    if is_blank_line l then
      l :: collapse_blank_runs_spec (rest.dropWhile is_blank_line)
    else
      l :: collapse_blank_runs_spec rest
termination_by ls => ls.length
decreasing_by
  · exact Nat.lt_succ_of_le (List.dropWhile_sublist _).length_le
  · exact Nat.lt_succ_of_le (Nat.le_refl _)

/-- Split a character list at every slash, keeping empty pieces. -/
def splitSlash : List Char → List (List Char)
  | [] => [[]]
  | c :: rest =>
    let ps := splitSlash rest
    if c = '/' then [] :: ps
    else
      match ps with
      | [] => [[c]]
      | p :: ps2 => (c :: p) :: ps2

/-- The components of a path string (Rust Path::components): pieces between
slashes, with empty pieces and "." components normalized away. -/
def path_components (s : String) : List String :=
  ((splitSlash s.data).filter (fun l => !l.isEmpty && l ≠ ['.'])).map
    (fun l => ⟨l⟩)

/-- Rust Path::file_stem on a filename's characters: the portion before the
last dot, or the whole name when there is no dot or when everything before
the last dot is empty (a leading-dot hidden file). -/
def file_stem_chars (l : List Char) : List Char :=
  match l.reverse.dropWhile (fun c => c ≠ '.') with
  | [] => l
  | _ :: pre => if pre.isEmpty then l else pre.reverse

/-- Rust Path::file_stem packaged on strings. -/
def rust_file_stem (f : String) : String :=
  ⟨file_stem_chars f.data⟩

/-- Repeatedly strip a trailing ".Notebook" (Rust str::trim_end_matches
removes all successive occurrences); the fuel argument bounds the number of
strips and is started at the list's length, which always suffices. -/
def trimNotebookSuffixAux : Nat → List Char → List Char
  | 0, l => l
  | fuel + 1, l =>
    if ".Notebook".data.isSuffixOf l then
      trimNotebookSuffixAux fuel (l.take (l.length - 9))
    else
      l

/-- Rust parent_dir_name.trim_end_matches(".Notebook"). -/
def trim_end_matches_notebook (s : String) : String :=
  ⟨trimNotebookSuffixAux s.data.length s.data⟩

/-- src/main.rs determine_output_names over a path's component list.  Rust
file_name is the last component (none when it is ".." or there is no
component, in which case the source panics, modelled as none).  For the fixed
generic filename "notebook-content.py" the parent directory's name is used
instead, with a trailing ".Notebook" stripped; when the parent has no usable
name (no parent component, or a ".." component) the fallback stem is
"notebook-content". -/
def determine_output_names_comps (comps : List String) :
    Option (String × String) :=
  match comps.getLast? with
  | none => none
  | some filename =>
    if filename = ".." then none
    else if filename ≠ "notebook-content.py" then
      some (rust_file_stem filename, filename)
    else
      let parent_dir_name :=
        match comps.dropLast.getLast? with
        | some d => if d = ".." then "notebook-content" else d
        | none => "notebook-content"
      let output_file_name := trim_end_matches_notebook parent_dir_name
      some (output_file_name, output_file_name ++ ".py")

/-- src/main.rs determine_output_names on a path string. -/
def determine_output_names (input_path : String) : Option (String × String) :=
  determine_output_names_comps (path_components input_path)

/-- src/main.rs PromptProfile. -/
inductive PromptProfile where
  | Default
  | Fabric
  | Synapse
  | Databricks
  | PowerBi
  | Aws
  | DataFactory
deriving DecidableEq, Repr

/-- src/main.rs PromptProfileSpec. -/
structure PromptProfileSpec where
  profile : PromptProfile
  name : String
  selector_flags : List String
  template_stem : String

/-- src/main.rs PROMPT_PROFILE_SPECS registry, in declaration order. -/
def PROMPT_PROFILE_SPECS : List PromptProfileSpec :=
  [⟨.Default, "default", [], "default"⟩,
   ⟨.Fabric, "fabric", ["-fabric"], "fabric"⟩,
   ⟨.Synapse, "synapse", ["-synapse"], "synapse"⟩,
   ⟨.Databricks, "databricks", ["-databricks"], "databricks"⟩,
   ⟨.PowerBi, "powerbi", ["-powerbi"], "powerbi"⟩,
   ⟨.Aws, "aws", ["-aws"], "aws"⟩,
   ⟨.DataFactory, "datafactory", ["-datafactory"], "datafactory"⟩]

/-- src/main.rs parse_profile_selector: first registry entry whose selector
flags contain the token. -/
def parse_profile_selector (arg : String) : Option PromptProfile :=
  (PROMPT_PROFILE_SPECS.find? (fun spec => spec.selector_flags.contains arg)).map
    (fun spec => spec.profile)

/-- src/main.rs prompt_profile_spec: registry entry for a profile (the panic
for a missing entry is unreachable and modelled by a dummy entry). -/
def prompt_profile_spec (profile : PromptProfile) : PromptProfileSpec :=
  match PROMPT_PROFILE_SPECS.find? (fun spec => spec.profile = profile) with
  | some spec => spec
  | none => ⟨.Default, "", [], ""⟩

/-- src/main.rs profile_selector_name. -/
def profile_selector_name (profile : PromptProfile) : String :=
  (prompt_profile_spec profile).name

/-- src/main.rs supported_selector_list: comma-joined first selector flags. -/
def supported_selector_list : String :=
  String.intercalate ", "
    (PROMPT_PROFILE_SPECS.filterMap (fun spec => spec.selector_flags.head?))

/-- src/main.rs CliArgs. -/
structure CliArgs where
  file_path : String
  profile : PromptProfile
deriving DecidableEq, Repr

/-- Error text of the conflicting-selectors branch of parse_cli_args. -/
def conflict_message (existing parsed : PromptProfile) : String :=
  "[ERR] - Conflicting selectors: both '" ++ profile_selector_name existing ++
    "' and '" ++ profile_selector_name parsed ++ "' were provided."

/-- Error text of the unknown-selector branch of parse_cli_args. -/
def unknown_selector_message (arg : String) : String :=
  "[ERR] - Unknown selector '" ++ arg ++ "'. Supported selectors: " ++
    supported_selector_list ++ "."

/-- Error text of the multiple-paths branch of parse_cli_args. -/
def multiple_paths_message (existing arg : String) : String :=
  "[ERR] - Multiple input paths were provided: '" ++ existing ++ "' and '" ++
    arg ++ "'."

/-- Rust arg.starts_with('-'): the first character is a dash. -/
def starts_with_dash (arg : String) : Bool :=
  match arg.data with
  | [] => false
  | c :: _ => c = '-'

deriving instance DecidableEq for Except

/-- The token loop of src/main.rs parse_cli_args, carrying the
selector_profile and file_path accumulators. -/
def parseArgsLoop (args : List String) (selector_profile : Option PromptProfile)
    (file_path : Option String) :
    Except String (Option PromptProfile × Option String) :=
  match args with
  | [] => .ok (selector_profile, file_path)
  | arg :: rest =>
    match parse_profile_selector arg with
    | some parsed_selector =>
      match selector_profile with
      | some existing_selector =>
        if existing_selector ≠ parsed_selector then
          .error (conflict_message existing_selector parsed_selector)
        else
          parseArgsLoop rest selector_profile file_path
      | none => parseArgsLoop rest (some parsed_selector) file_path
    | none =>
      if starts_with_dash arg then
        .error (unknown_selector_message arg)
      else
        match file_path with
        | some existing_path => .error (multiple_paths_message existing_path arg)
        | none => parseArgsLoop rest selector_profile (some arg)

/-- src/main.rs parse_cli_args: skip the program name, run the token loop,
default the profile and require a path. -/
def parse_cli_args (args : List String) : Except String CliArgs :=
  if args.isEmpty then .error "[ERR] - Missing executable name."
  else
    match parseArgsLoop (args.drop 1) none none with
    | .error e => .error e
    | .ok (selector_profile, file_path) =>
      let profile := selector_profile.getD .Default
      match file_path with
      | none => .error "[ERR] - Missing required notebook path argument."
      | some path => .ok ⟨path, profile⟩

/-- Replacement of every occurrence of one character by a character list
(one str::replace step of the cell escaper). -/
def replaceChar (target : Char) (repl : List Char) (l : List Char) :
    List Char :=
  l.flatMap (fun c => if c = target then repl else [c])

/-- Concatenation of a list of strings, used to state the rendering
contract. -/
def joinStrings : List String → String
  | [] => ""
  | s :: rest => s ++ joinStrings rest

/-- Per-character reading of the cell escaper, used to state that the three
sequential replacements act independently: pipe becomes backslash-pipe,
newline and carriage return become a single space, and everything else is
kept. -/
def escCharSpec (c : Char) : List Char :=
  if c = '|' then ['\\', '|']
  else if c = '\n' then [' ']
  else if c = '\r' then [' ']
  else [c]

/-- The esc helper inside format_definitions_as_markdown_table
(src/fetch_definitions.rs): replace pipe by backslash-pipe, then newline by
space, then carriage return by space, in that order. -/
def esc (s : String) : String :=
  ⟨replaceChar '\r' [' ']
    (replaceChar '\n' [' ']
      (replaceChar '|' ['\\', '|'] s.data))⟩

/-- src/fetch_definitions.rs format_definitions_as_markdown_table, with the
source's sequence of String pushes rendered as left folds over the columns
and rows. -/
def format_definitions_as_markdown_table (col_names : List String)
    (rows : List (List String)) : String :=
  if col_names.isEmpty then
    "[INF] - No definition rows returned."
  else
    let out := "|"
    let out := col_names.foldl (fun out c => out ++ (" " ++ esc c ++ " |")) out
    let out := out ++ "\n"
    let out := out ++ "|"
    let out := col_names.foldl (fun out _ => out ++ " --- |") out
    let out := out ++ "\n"
    let out := rows.foldl (fun out r =>
      let out := out ++ "|"
      let out := (List.range col_names.length).foldl (fun out i =>
        out ++ (" " ++ esc ((r.get? i).getD "") ++ " |")) out
      out ++ "\n") out
    out

/-- Written from the spec's words for comparison with
format_definitions_as_markdown_table: a header row of the columns, a
separator row of the same width, then one row per entry of rows whose cell at
column index i is the row's value there, or the empty string when the row is
shorter; values beyond the column count are dropped; empty columns give the
fixed sentinel regardless of rows. -/
def render_markdown_table_spec (cols : List String) (rows : List (List String)) :
    String :=
  if cols.isEmpty then
    "[INF] - No definition rows returned."
  else
    ("|" ++ joinStrings (cols.map (fun c => " " ++ esc c ++ " |")) ++ "\n") ++
    ("|" ++ joinStrings (cols.map (fun _ => " --- |")) ++ "\n") ++
    joinStrings (rows.map (fun r =>
      "|" ++ joinStrings ((List.range cols.length).map (fun i =>
        " " ++ esc ((r.get? i).getD "") ++ " |")) ++ "\n"))

/-- The fields of src/main.rs EnvParameters that drive the definitions
resolver in main (the AI and key-vault fields are checked earlier in main and
play no part in it). -/
structure EnvParameters where
  definition_database_enabled : Bool
  definition_fabric_database_enabled : Bool
  definition_fabric_database : String
  akv_secret_definition_fabric_endpoint : String
  akv_secret_definition_fabric_client_id : String
  akv_secret_definition_fabric_password : String
  definition_azure_database_enabled : Bool

/-- Outcome of the fetch_definitions_from_fabric call as main observes it:
either column names and rows, or an error (connection, SQL-file read or query
failure). -/
inductive FetchOutcome where
  | ok (cols : List String) (rows : List (List String))
  | err (e : String)

/-- The Fabric configuration test of main (src/main.rs lines 936-940):
backend enabled and the three secret key names and the database name all
non-empty after trimming, in the source's order. -/
def fabric_config_ok (env : EnvParameters) : Bool :=
  env.definition_fabric_database_enabled &&
    !(rustTrim env.akv_secret_definition_fabric_endpoint.data).isEmpty &&
    !(rustTrim env.akv_secret_definition_fabric_client_id.data).isEmpty &&
    !(rustTrim env.akv_secret_definition_fabric_password.data).isEmpty &&
    !(rustTrim env.definition_fabric_database.data).isEmpty

/-- The LIKE pattern fetch_definitions_from_fabric passes to the query
(src/fetch_definitions.rs line 207): the table stem followed by the SQL
wildcard. -/
def fabric_table_like_pattern (stem : String) : String :=
  stem ++ "%"

/-- The definitions block of src/main.rs main (lines 932-995): none models
aborting the run (the early return after "No supported definition DB
configured"); some s is the definitions string handed to prompt assembly. -/
def resolve_definitions (env : EnvParameters) (fetched : FetchOutcome) :
    Option String :=
  if env.definition_database_enabled then
    if fabric_config_ok env then
      match fetched with
      | .ok cols rows =>
        if !cols.isEmpty && !rows.isEmpty then
          some (format_definitions_as_markdown_table cols rows)
        else
          some "[INF] - No definitions loaded (query returned no rows)."
      | .err _ =>
        some "[INF] - No definitions loaded (query failed)."
    else if env.definition_azure_database_enabled then
      some "[INF] - Azure SQL definitions not implemented yet."
    else
      none
  else
    some "[INF] - Definition database disabled."

theorem splitNL_ne_nil (l : List Char) : splitNL l ≠ [] := by
  induction l with
  | nil => simp [splitNL]
  | cons c rest ih =>
    simp only [splitNL]
    split
    · simp
    · split
      · simp
      · simp

theorem mem_splitNL_no_newline (l : List Char) :
    ∀ p ∈ splitNL l, '\n' ∉ p := by
  induction l with
  | nil =>
    intro p hp
    simp [splitNL] at hp
    simp [hp]
  | cons c rest ih =>
    intro p hp
    simp only [splitNL] at hp
    by_cases hc : c = '\n'
    · simp only [if_pos hc] at hp
      rcases List.mem_cons.mp hp with rfl | hp
      · simp
      · exact ih p hp
    · simp only [if_neg hc] at hp
      rcases hsp : splitNL rest with _ | ⟨q, qs⟩
      · exact absurd hsp (splitNL_ne_nil rest)
      · rw [hsp] at hp
        rcases List.mem_cons.mp hp with rfl | hp
        · intro hmem
          rcases List.mem_cons.mp hmem with h1 | h1
          · exact hc h1.symm
          · exact ih q (by rw [hsp]; exact List.mem_cons_self q qs) h1
        · exact ih p (by rw [hsp]; exact List.mem_cons_of_mem q hp)

theorem splitNL_append_cons (a b : List Char) (ha : '\n' ∉ a) :
    splitNL (a ++ '\n' :: b) = a :: splitNL b := by
  induction a with
  | nil => simp [splitNL]
  | cons c a2 ih =>
    have hc : c ≠ '\n' := by
      intro h
      exact ha (by simp [h])
    have ha2 : '\n' ∉ a2 := fun h => ha (List.mem_cons_of_mem c h)
    simp only [List.cons_append, splitNL, if_neg hc, List.append_eq]
    rw [ih ha2]

theorem splitNL_eq_single (l : List Char) (h : '\n' ∉ l) : splitNL l = [l] := by
  induction l with
  | nil => simp [splitNL]
  | cons c rest ih =>
    have hc : c ≠ '\n' := by
      intro hcc
      exact h (by simp [hcc])
    have h2 : '\n' ∉ rest := fun hm => h (List.mem_cons_of_mem c hm)
    simp only [splitNL, if_neg hc]
    rw [ih h2]

theorem dropTrailingCR_of_getLast (l : List Char) (h : l.getLast? ≠ some '\r') :
    dropTrailingCR l = l := by
  induction l with
  | nil => rfl
  | cons c rest ih =>
    cases rest with
    | nil =>
      have hc : c ≠ '\r' := by
        intro hcc
        exact h (by simp [hcc])
      simp [dropTrailingCR, hc]
    | cons d rest2 =>
      have h2 : (d :: rest2).getLast? ≠ some '\r' := by
        rwa [List.getLast?_cons_cons] at h
      show c :: dropTrailingCR (d :: rest2) = c :: d :: rest2
      rw [ih h2]

theorem dropTrailingCR_append_cr (l : List Char) :
    dropTrailingCR (l ++ ['\r']) = l := by
  induction l with
  | nil => rfl
  | cons c rest ih =>
    cases rest with
    | nil => rfl
    | cons d rest2 =>
      show c :: dropTrailingCR ((d :: rest2) ++ ['\r']) = c :: d :: rest2
      rw [ih]

theorem no_newline_dropTrailingCR (l : List Char) (h : '\n' ∉ l) :
    '\n' ∉ dropTrailingCR l := by
  induction l with
  | nil => simp [dropTrailingCR]
  | cons c rest ih =>
    have hc : c ≠ '\n' := fun hcc => h (by simp [hcc])
    have h2 : '\n' ∉ rest := fun hm => h (List.mem_cons_of_mem c hm)
    cases rest with
    | nil =>
      by_cases hcr : c = '\r'
      · simp [dropTrailingCR, hcr]
      · simp only [dropTrailingCR, if_neg hcr]
        intro hmem
        exact hc (List.mem_singleton.mp hmem).symm
    | cons d rest2 =>
      show '\n' ∉ c :: dropTrailingCR (d :: rest2)
      intro hmem
      rcases List.mem_cons.mp hmem with h1 | h1
      · exact hc h1.symm
      · exact ih h2 h1

theorem rustLines_nil : rustLines [] = [] := rfl

theorem rustLines_single (l : List Char) (h : '\n' ∉ l) (hn : l ≠ []) :
    rustLines l = [l] := by
  simp only [rustLines, splitNL_eq_single l h]
  simp [hn]

theorem rustLines_append_cons (a b : List Char) (ha : '\n' ∉ a) :
    rustLines (a ++ '\n' :: b) = dropTrailingCR a :: rustLines b := by
  rcases hsp : splitNL b with _ | ⟨h, t⟩
  · exact absurd hsp (splitNL_ne_nil b)
  · simp only [rustLines, splitNL_append_cons a b ha, hsp]
    simp [List.dropLast_cons_of_ne_nil]

theorem mem_rustLines_no_newline (s : List Char) :
    ∀ p ∈ rustLines s, '\n' ∉ p := by
  intro p hp
  simp only [rustLines] at hp
  rcases List.mem_append.mp hp with hmem | hmem
  · rcases List.mem_map.mp hmem with ⟨q, hq, rfl⟩
    exact no_newline_dropTrailingCR q
      (mem_splitNL_no_newline s q (List.mem_of_mem_dropLast hq))
  · rcases hlast : (splitNL s).getLast? with _ | last
    · simp [hlast] at hmem
    · rw [hlast] at hmem
      by_cases hl : last = []
      · simp [hl] at hmem
      · simp only [if_neg hl, List.mem_singleton] at hmem
        subst hmem
        exact mem_splitNL_no_newline s p (List.mem_of_mem_getLast? hlast)

theorem rustLines_joinNL (ls : List (List Char))
    (h1 : ∀ l ∈ ls, '\n' ∉ l)
    (h2 : ∀ l ∈ ls.dropLast, l.getLast? ≠ some '\r')
    (h3 : ls.getLast? ≠ some []) :
    rustLines (joinNL ls) = ls := by
  induction ls using joinNL.induct with
  | case1 => rfl
  | case2 l =>
    have hl : l ≠ [] := by
      intro hll
      exact h3 (by simp [hll])
    show rustLines l = [l]
    exact rustLines_single l (h1 l (by simp)) hl
  | case3 l l2 rest ih =>
    have hln : '\n' ∉ l := h1 l (by simp)
    show rustLines (l ++ '\n' :: joinNL (l2 :: rest)) = l :: l2 :: rest
    rw [rustLines_append_cons l _ hln,
      dropTrailingCR_of_getLast l (h2 l (by simp [List.dropLast_cons_of_ne_nil]))]
    congr 1
    exact ih (fun x hx => h1 x (List.mem_cons_of_mem l hx))
      (fun x hx => h2 x (by
        rw [List.dropLast_cons_of_ne_nil (l := l2 :: rest) (by simp)]
        exact List.mem_cons_of_mem l hx))
      (by rwa [List.getLast?_cons_cons] at h3)

theorem rustLines_joinNL_length_le (ls : List (List Char))
    (h1 : ∀ l ∈ ls, '\n' ∉ l) :
    (rustLines (joinNL ls)).length ≤ ls.length := by
  induction ls using joinNL.induct with
  | case1 => simp [joinNL, rustLines_nil]
  | case2 l =>
    by_cases hl : l = []
    · subst hl
      show (rustLines (joinNL [[]])).length ≤ 1
      simp [joinNL, rustLines]
      simp [splitNL]
    · show (rustLines l).length ≤ 1
      simp [rustLines_single l (h1 l (by simp)) hl]
  | case3 l l2 rest ih =>
    have hln : '\n' ∉ l := h1 l (by simp)
    show (rustLines (l ++ '\n' :: joinNL (l2 :: rest))).length ≤
      (l :: l2 :: rest).length
    rw [rustLines_append_cons l _ hln]
    simp only [List.length_cons]
    exact Nat.succ_le_succ (ih (fun x hx => h1 x (List.mem_cons_of_mem l hx)))

theorem rustLines_joinCRLF (ls : List (List Char))
    (h1 : ∀ l ∈ ls, '\n' ∉ l)
    (h2 : ∀ l ∈ ls, l.getLast? ≠ some '\r') :
    rustLines (joinCRLF ls) = rustLines (joinNL ls) := by
  induction ls using joinCRLF.induct with
  | case1 => rfl
  | case2 l => rfl
  | case3 l l2 rest ih =>
    have hln : '\n' ∉ l := h1 l (by simp)
    have hcrl : '\n' ∉ l ++ ['\r'] := by
      intro hmem
      rcases List.mem_append.mp hmem with hm | hm
      · exact hln hm
      · simp at hm
    have hstep : joinCRLF (l :: l2 :: rest) =
        (l ++ ['\r']) ++ '\n' :: joinCRLF (l2 :: rest) := by
      simp [joinCRLF]
    rw [hstep, rustLines_append_cons _ _ hcrl, dropTrailingCR_append_cr]
    show l :: rustLines (joinCRLF (l2 :: rest)) =
      rustLines (l ++ '\n' :: joinNL (l2 :: rest))
    rw [rustLines_append_cons l _ hln,
      dropTrailingCR_of_getLast l (h2 l (by simp))]
    congr 1
    exact ih (fun x hx => h1 x (List.mem_cons_of_mem l hx))
      (fun x hx => h2 x (List.mem_cons_of_mem l hx))

theorem rustLines_joinNL_append_nl (ls : List (List Char))
    (h0 : ls ≠ [])
    (h1 : ∀ l ∈ ls, '\n' ∉ l)
    (h2 : ∀ l ∈ ls, l.getLast? ≠ some '\r') :
    rustLines (joinNL ls ++ ['\n']) = ls := by
  induction ls using joinNL.induct with
  | case1 => exact absurd rfl h0
  | case2 l =>
    have hln : '\n' ∉ l := h1 l (by simp)
    have hstep : joinNL [l] ++ ['\n'] = l ++ '\n' :: ([] : List Char) := by
      simp [joinNL]
    rw [hstep, rustLines_append_cons l _ hln, rustLines_nil,
      dropTrailingCR_of_getLast l (h2 l (by simp))]
  | case3 l l2 rest ih =>
    have hln : '\n' ∉ l := h1 l (by simp)
    have hstep : joinNL (l :: l2 :: rest) ++ ['\n'] =
        l ++ '\n' :: (joinNL (l2 :: rest) ++ ['\n']) := by
      simp [joinNL]
    rw [hstep, rustLines_append_cons l _ hln,
      dropTrailingCR_of_getLast l (h2 l (by simp))]
    congr 1
    exact ih (by simp) (fun x hx => h1 x (List.mem_cons_of_mem l hx))
      (fun x hx => h2 x (List.mem_cons_of_mem l hx))

theorem pred_head_dropWhile {α : Type} (p : α → Bool) (l : List α) (h : α)
    (t : List α) (heq : l.dropWhile p = h :: t) : p h = false := by
  induction l with
  | nil => simp [List.dropWhile] at heq
  | cons c rest ih =>
    by_cases hc : p c
    · rw [List.dropWhile_cons_of_pos hc] at heq
      exact ih heq
    · rw [List.dropWhile_cons_of_neg hc] at heq
      rw [← List.cons.injEq c rest h t |>.mp heq |>.1]
      exact Bool.of_not_eq_true hc

theorem filter_not_dropWhile {α : Type} (p : α → Bool) (l : List α) :
    (l.dropWhile p).filter (fun x => !p x) = l.filter (fun x => !p x) := by
  induction l with
  | nil => rfl
  | cons c rest ih =>
    by_cases hc : p c
    · rw [List.dropWhile_cons_of_pos hc, ih, List.filter_cons]
      simp [hc]
    · rw [List.dropWhile_cons_of_neg hc]

theorem collapseAux_eq_spec (ls : List (List Char)) :
    collapseAux ls false = collapse_blank_runs_spec ls ∧
      collapseAux ls true = collapse_blank_runs_spec (ls.dropWhile is_blank_line) := by
  induction ls with
  | nil =>
    constructor
    · simp [collapseAux, collapse_blank_runs_spec]
    · simp [collapseAux, collapse_blank_runs_spec]
  | cons l rest ih =>
    by_cases hb : is_blank_line l
    · constructor
      · show (if is_blank_line l then
            (if false then collapseAux rest true else l :: collapseAux rest true)
          else l :: collapseAux rest false) = _
        rw [if_pos hb, if_neg (by simp)]
        rw [collapse_blank_runs_spec, if_pos hb, ih.2]
      · show (if is_blank_line l then
            (if true then collapseAux rest true else l :: collapseAux rest true)
          else l :: collapseAux rest false) = _
        rw [if_pos hb, if_pos (by simp), List.dropWhile_cons_of_pos hb, ih.2]
    · constructor
      · show (if is_blank_line l then
            (if false then collapseAux rest true else l :: collapseAux rest true)
          else l :: collapseAux rest false) = _
        rw [if_neg hb, collapse_blank_runs_spec, if_neg hb, ih.1]
      · show (if is_blank_line l then
            (if true then collapseAux rest true else l :: collapseAux rest true)
          else l :: collapseAux rest false) = _
        rw [if_neg hb, List.dropWhile_cons_of_neg hb,
          collapse_blank_runs_spec, if_neg hb, ih.1]

theorem collapse_lines_eq_spec (ls : List (List Char)) :
    collapse_lines ls = collapse_blank_runs_spec ls :=
  (collapseAux_eq_spec ls).1

theorem spec_sublist (ls : List (List Char)) :
    (collapse_blank_runs_spec ls).Sublist ls := by
  induction ls using collapse_blank_runs_spec.induct with
  | case1 => simp [collapse_blank_runs_spec]
  | case2 l rest hb ih =>
    rw [collapse_blank_runs_spec, if_pos hb]
    exact List.Sublist.cons₂ l (ih.trans (List.dropWhile_sublist _))
  | case3 l rest hb ih =>
    rw [collapse_blank_runs_spec, if_neg hb]
    exact List.Sublist.cons₂ l ih

theorem spec_dropWhile_blank (ls : List (List Char)) :
    (collapse_blank_runs_spec (ls.dropWhile is_blank_line)).dropWhile
        is_blank_line =
      collapse_blank_runs_spec (ls.dropWhile is_blank_line) := by
  cases heq : ls.dropWhile is_blank_line with
  | nil => simp [collapse_blank_runs_spec]
  | cons h t =>
    have hh : is_blank_line h = false := pred_head_dropWhile _ ls h t heq
    rw [collapse_blank_runs_spec, if_neg (by simp [hh])]
    rw [List.dropWhile_cons_of_neg (by simp [hh])]

theorem spec_idem (ls : List (List Char)) :
    collapse_blank_runs_spec (collapse_blank_runs_spec ls) =
      collapse_blank_runs_spec ls := by
  induction ls using collapse_blank_runs_spec.induct with
  | case1 => simp [collapse_blank_runs_spec]
  | case2 l rest hb ih =>
    have e1 : collapse_blank_runs_spec (l :: rest) =
        l :: collapse_blank_runs_spec (rest.dropWhile is_blank_line) := by
      rw [collapse_blank_runs_spec, if_pos hb]
    rw [e1, collapse_blank_runs_spec, if_pos hb, spec_dropWhile_blank rest, ih]
  | case3 l rest hb ih =>
    have e1 : collapse_blank_runs_spec (l :: rest) =
        l :: collapse_blank_runs_spec rest := by
      rw [collapse_blank_runs_spec, if_neg hb]
    rw [e1, collapse_blank_runs_spec, if_neg hb, ih]

theorem spec_filter_nonblank (ls : List (List Char)) :
    (collapse_blank_runs_spec ls).filter (fun l => !is_blank_line l) =
      ls.filter (fun l => !is_blank_line l) := by
  induction ls using collapse_blank_runs_spec.induct with
  | case1 => simp [collapse_blank_runs_spec]
  | case2 l rest hb ih =>
    rw [collapse_blank_runs_spec, if_pos hb]
    rw [List.filter_cons, List.filter_cons]
    simp only [hb, Bool.not_true, Bool.false_eq_true, if_false]
    rw [ih, filter_not_dropWhile]
  | case3 l rest hb ih =>
    rw [collapse_blank_runs_spec, if_neg hb]
    rw [List.filter_cons, List.filter_cons]
    rw [ih]

theorem replaceChar_cons (t : Char) (r : List Char) (c : Char) (l : List Char) :
    replaceChar t r (c :: l) =
      (if c = t then r else [c]) ++ replaceChar t r l := by
  simp [replaceChar]

theorem escChars_eq_flatMap (l : List Char) :
    replaceChar '\r' [' ']
        (replaceChar '\n' [' '] (replaceChar '|' ['\\', '|'] l)) =
      l.flatMap escCharSpec := by
  simp only [replaceChar, List.flatMap_assoc]
  apply congrArg
  funext c
  by_cases h1 : c = '|'
  · subst h1
    rfl
  · by_cases h2 : c = '\n'
    · subst h2
      rfl
    · by_cases h3 : c = '\r'
      · subst h3
        rfl
      · simp [escCharSpec, h1, h2, h3]

theorem esc_data (s : String) : (esc s).data = s.data.flatMap escCharSpec :=
  escChars_eq_flatMap s.data

theorem escCharSpec_no_newline (c x : Char) (hx : x ∈ escCharSpec c) :
    x ≠ '\n' ∧ x ≠ '\r' := by
  by_cases h1 : c = '|'
  · simp [escCharSpec, h1] at hx
    rcases hx with rfl | rfl <;> constructor <;> decide
  · by_cases h2 : c = '\n'
    · simp [escCharSpec, h1, h2] at hx
      subst hx
      constructor <;> decide
    · by_cases h3 : c = '\r'
      · simp [escCharSpec, h1, h2, h3] at hx
        subst hx
        constructor <;> decide
      · simp [escCharSpec, h1, h2, h3] at hx
        subst hx
        exact ⟨h2, h3⟩

theorem esc_no_newline (s : String) : '\n' ∉ (esc s).data := by
  rw [esc_data]
  intro hmem
  rcases List.mem_flatMap.mp hmem with ⟨c, _, hc⟩
  exact (escCharSpec_no_newline c '\n' hc).1 rfl

theorem esc_no_cr (s : String) : '\r' ∉ (esc s).data := by
  rw [esc_data]
  intro hmem
  rcases List.mem_flatMap.mp hmem with ⟨c, _, hc⟩
  exact (escCharSpec_no_newline c '\r' hc).2 rfl

theorem foldl_append_eq {α : Type} (g : String → α → String) (f : α → String)
    (hg : ∀ (o : String) (a : α), g o a = o ++ f a) (l : List α) (out : String) :
    l.foldl g out = out ++ joinStrings (l.map f) := by
  induction l generalizing out with
  | nil => simp [joinStrings, String.append_empty]
  | cons a as ih =>
    simp only [List.foldl_cons, List.map_cons, joinStrings]
    rw [hg, ih, String.append_assoc]

theorem format_table_eq_render_spec (cols : List String)
    (rows : List (List String)) :
    format_definitions_as_markdown_table cols rows =
      render_markdown_table_spec cols rows := by
  by_cases h : cols.isEmpty
  · simp [format_definitions_as_markdown_table, render_markdown_table_spec, h]
  · simp only [format_definitions_as_markdown_table,
      render_markdown_table_spec, h, Bool.false_eq_true, if_false]
    rw [foldl_append_eq _ (fun c => " " ++ esc c ++ " |")
      (fun o a => rfl) cols "|"]
    rw [foldl_append_eq _ (fun (_ : String) => " --- |")
      (fun o a => rfl) cols]
    rw [foldl_append_eq _ (fun r => "|" ++ joinStrings
        ((List.range cols.length).map
          (fun i => " " ++ esc ((r.get? i).getD "") ++ " |")) ++ "\n")
      (fun out r => by
        rw [foldl_append_eq _ (fun i => " " ++ esc ((r.get? i).getD "") ++ " |")
          (fun o a => rfl) (List.range cols.length) (out ++ "|")]
        simp only [String.append_assoc]) rows]
    simp only [String.append_assoc]

theorem joinStrings_data_no_mem (x : Char) (l : List String)
    (h : ∀ s ∈ l, x ∉ s.data) : x ∉ (joinStrings l).data := by
  induction l with
  | nil => simp [joinStrings]
  | cons s rest ih =>
    simp only [joinStrings, String.data_append]
    intro hmem
    rcases List.mem_append.mp hmem with hm | hm
    · exact h s (by simp) hm
    · exact ih (fun t ht => h t (List.mem_cons_of_mem s ht)) hm

theorem joinStrings_count (x : Char) (l : List String) :
    (joinStrings l).data.count x = (l.map (fun s => s.data.count x)).sum := by
  induction l with
  | nil => simp [joinStrings]
  | cons s rest ih =>
    simp only [joinStrings, String.data_append, List.count_append, List.map_cons,
      List.sum_cons]
    rw [ih]

theorem parseArgsLoop_error_of_conflict_some (l : List String)
    (fp : Option String) (p : PromptProfile)
    (h : ∃ a ∈ l, ∃ q, parse_profile_selector a = some q ∧ q ≠ p) :
    ∃ m, parseArgsLoop l (some p) fp = .error m := by
  induction l generalizing fp with
  | nil =>
    rcases h with ⟨a, ha, _⟩
    exact absurd ha (List.not_mem_nil a)
  | cons a rest ih =>
    rcases h with ⟨w, hw, q, hq, hne⟩
    rcases hsel : parse_profile_selector a with _ | q2
    · simp only [parseArgsLoop, hsel]
      have hwa : w ≠ a := by
        intro heq
        rw [heq, hsel] at hq
        exact Option.noConfusion hq
      have hwrest : w ∈ rest := by
        rcases List.mem_cons.mp hw with heq | hmem
        · exact absurd heq hwa
        · exact hmem
      by_cases hd : starts_with_dash a
      · exact ⟨_, by rw [if_pos hd]⟩
      · rw [if_neg hd]
        rcases fp with _ | path
        · show ∃ m, parseArgsLoop rest (some p) (some a) = .error m
          exact ih (some a) ⟨w, hwrest, q, hq, hne⟩
        · exact ⟨_, rfl⟩
    · simp only [parseArgsLoop, hsel]
      by_cases hqp : p ≠ q2
      · exact ⟨_, by rw [if_pos hqp]⟩
      · push_neg at hqp
        rw [if_neg (by simp [hqp])]
        apply ih
        have hwa : w ≠ a := by
          intro heq
          rw [heq, hsel] at hq
          have hqq : q2 = q := Option.some.inj hq
          rw [← hqq, ← hqp] at hne
          exact hne rfl
        have hwrest : w ∈ rest := by
          rcases List.mem_cons.mp hw with heq | hmem
          · exact absurd heq hwa
          · exact hmem
        exact ⟨w, hwrest, q, hq, hne⟩

theorem parseArgsLoop_error_of_conflict (l : List String) (fp : Option String)
    (a1 a2 : String) (p1 p2 : PromptProfile)
    (ha1 : a1 ∈ l) (ha2 : a2 ∈ l)
    (h1 : parse_profile_selector a1 = some p1)
    (h2 : parse_profile_selector a2 = some p2)
    (hne : p1 ≠ p2) :
    ∃ m, parseArgsLoop l none fp = .error m := by
  induction l generalizing fp with
  | nil => exact absurd ha1 (List.not_mem_nil a1)
  | cons a rest ih =>
    rcases hsel : parse_profile_selector a with _ | q
    · have hne1 : a1 ≠ a := by
        intro heq
        rw [heq, hsel] at h1
        exact Option.noConfusion h1
      have hne2 : a2 ≠ a := by
        intro heq
        rw [heq, hsel] at h2
        exact Option.noConfusion h2
      have hm1 : a1 ∈ rest := by
        rcases List.mem_cons.mp ha1 with heq | hmem
        · exact absurd heq hne1
        · exact hmem
      have hm2 : a2 ∈ rest := by
        rcases List.mem_cons.mp ha2 with heq | hmem
        · exact absurd heq hne2
        · exact hmem
      simp only [parseArgsLoop, hsel]
      by_cases hd : starts_with_dash a
      · exact ⟨_, by rw [if_pos hd]⟩
      · rw [if_neg hd]
        rcases fp with _ | path
        · show ∃ m, parseArgsLoop rest none (some a) = .error m
          exact ih (some a) hm1 hm2
        · exact ⟨_, rfl⟩
    · simp only [parseArgsLoop, hsel]
      by_cases hq1 : p1 = q
      · have hq2 : p2 ≠ q := by
          rw [← hq1]
          exact fun heq => hne heq.symm
        have hm2 : a2 ∈ rest := by
          rcases List.mem_cons.mp ha2 with heq | hmem
          · exfalso
            rw [heq, hsel] at h2
            exact hq2 (Option.some.inj h2.symm)
          · exact hmem
        exact parseArgsLoop_error_of_conflict_some rest fp q
          ⟨a2, hm2, p2, h2, hq2⟩
      · have hm1 : a1 ∈ rest := by
          rcases List.mem_cons.mp ha1 with heq | hmem
          · exfalso
            rw [heq, hsel] at h1
            exact hq1 (Option.some.inj h1.symm)
          · exact hmem
        exact parseArgsLoop_error_of_conflict_some rest fp q
          ⟨a1, hm1, p1, h1, hq1⟩

theorem parse_cli_args_error_of_two_selectors (args : List String)
    (a1 a2 : String) (p1 p2 : PromptProfile)
    (ha1 : a1 ∈ args.drop 1) (ha2 : a2 ∈ args.drop 1)
    (h1 : parse_profile_selector a1 = some p1)
    (h2 : parse_profile_selector a2 = some p2)
    (hne : p1 ≠ p2) :
    ∃ m, parse_cli_args args = .error m := by
  by_cases he : args.isEmpty
  · exact ⟨_, by rw [parse_cli_args, if_pos he]⟩
  · rcases parseArgsLoop_error_of_conflict (args.drop 1) none a1 a2 p1 p2
      ha1 ha2 h1 h2 hne with ⟨m, hm⟩
    refine ⟨m, ?_⟩
    rw [parse_cli_args, if_neg he, hm]

/-- C1: the definitions resolver follows the fixed decision order: disabled
database gives the disabled placeholder; an enabled database with a fully
configured Fabric backend renders the Markdown table on a result with at
least one column and one row, the no-rows placeholder on a result with no
rows, and the query-failed placeholder on failure, without aborting; a
misconfigured Fabric backend falls through to the Azure not-implemented
placeholder when Azure is enabled; and the run aborts (none) exactly when the
database is enabled and neither backend applies.  The Fabric branch takes
priority regardless of the Azure flag, and the query pattern appends the SQL
wildcard to the stem. -/
theorem C1_definitions_resolver_decision_order (env : EnvParameters)
    (fetched : FetchOutcome) (cols : List String) (rows : List (List String)) :
    (env.definition_database_enabled = false →
      resolve_definitions env fetched =
        some "[INF] - Definition database disabled.")
    ∧ (env.definition_database_enabled = true → fabric_config_ok env = true →
        (cols ≠ [] → rows ≠ [] →
          resolve_definitions env (.ok cols rows) =
            some (format_definitions_as_markdown_table cols rows))
        ∧ (rows = [] →
          resolve_definitions env (.ok cols rows) =
            some "[INF] - No definitions loaded (query returned no rows).")
        ∧ (∀ e, resolve_definitions env (.err e) =
            some "[INF] - No definitions loaded (query failed)."))
    ∧ (env.definition_database_enabled = true → fabric_config_ok env = false →
        env.definition_azure_database_enabled = true →
        resolve_definitions env fetched =
          some "[INF] - Azure SQL definitions not implemented yet.")
    ∧ (resolve_definitions env fetched = none ↔
        (env.definition_database_enabled = true ∧ fabric_config_ok env = false ∧
          env.definition_azure_database_enabled = false))
    ∧ fabric_table_like_pattern "Sales" = "Sales%" := by
  refine ⟨?_, ?_, ?_, ?_, by decide⟩
  · intro h
    simp [resolve_definitions, h]
  · intro h hf
    refine ⟨?_, ?_, ?_⟩
    · intro hc hr
      have hc2 : cols.isEmpty = false := by
        simpa [List.isEmpty_iff] using hc
      have hr2 : rows.isEmpty = false := by
        simpa [List.isEmpty_iff] using hr
      simp [resolve_definitions, h, hf, hc2, hr2]
    · intro hr
      subst hr
      simp [resolve_definitions, h, hf]
    · intro e
      simp [resolve_definitions, h, hf]
  · intro h hf ha
    simp [resolve_definitions, h, hf, ha]
  · constructor
    · intro hnone
      by_cases h : env.definition_database_enabled
      · by_cases hf : fabric_config_ok env
        · exfalso
          rcases fetched with ⟨cols2, rows2⟩ | e
          · by_cases hg : !cols2.isEmpty && !rows2.isEmpty
            · simp [resolve_definitions, h, hf, hg] at hnone
            · simp [resolve_definitions, h, hf, hg] at hnone
          · simp [resolve_definitions, h, hf] at hnone
        · by_cases ha : env.definition_azure_database_enabled
          · exfalso
            simp [resolve_definitions, h, hf, ha] at hnone
          · exact ⟨h, by simpa using hf, by simpa using ha⟩
      · exfalso
        simp [resolve_definitions, h] at hnone
    · rintro ⟨h, hf, ha⟩
      simp [resolve_definitions, h, hf, ha]

/-- C2 counterexample: the claim requires the metadata match to stop at a
word boundary, so that a line like "# METALLICA" is not a metadata line; the
code tests plain prefixes, so "# METALLICA" matches the "# META" prefix and
the line is stripped. -/
theorem C2_metallica_counterexample :
    is_metadata_line "# METALLICA" = true
    ∧ strip_notebook_metadata "# METALLICA" = ""
    ∧ ("" : String) ≠ "# METALLICA" :=
  ⟨by decide, by decide, by decide⟩

/-- C2 (amended): the metadata-strip transform removes a line exactly when
its leading-whitespace-trimmed content starts with "# METADATA", "# META" or
"# CELL" as a plain character prefix; because "# METADATA" extends "# META",
the test is equivalent to the "# META" and "# CELL" prefix tests alone, so a
line like "# METALLICA" is stripped, while "#METADATA" (no space after the
hash) does not match. -/
theorem C2_strip_metadata_prefix_rule (line : String)
    (h : '\n' ∉ line.data) :
    strip_notebook_metadata line =
        (if is_metadata_line line then "" else line)
    ∧ is_metadata_line line =
        ("# META".data.isPrefixOf (rustTrimStart line.data) ||
          "# CELL".data.isPrefixOf (rustTrimStart line.data))
    ∧ is_metadata_line "# METALLICA" = true
    ∧ is_metadata_line "#METADATA" = false := by
  refine ⟨?_, ?_, by decide, by decide⟩
  · obtain ⟨d⟩ := line
    cases d with
    | nil =>
      show strip_notebook_metadata "" = (if is_metadata_line "" then "" else "")
      decide
    | cons c cs =>
      have hd : (String.mk (c :: cs)).data = c :: cs := rfl
      have hrl : rustLines (String.mk (c :: cs)).data = [c :: cs] := by
        rw [hd]
        exact rustLines_single (c :: cs) h (by simp)
      by_cases hm : is_metadata_line (String.mk (c :: cs))
      · rw [if_pos hm]
        show String.mk (joinNL ((rustLines (String.mk (c :: cs)).data).filter
          (fun l => !is_metadata_line ⟨l⟩))) = ""
        rw [hrl, List.filter_cons]
        simp [hm, joinNL]
      · rw [if_neg hm]
        show String.mk (joinNL ((rustLines (String.mk (c :: cs)).data).filter
          (fun l => !is_metadata_line ⟨l⟩))) = String.mk (c :: cs)
        rw [hrl, List.filter_cons]
        simp only [hm]
        simp [joinNL]
  · show ("# METADATA".data.isPrefixOf (rustTrimStart line.data) ||
        "# META".data.isPrefixOf (rustTrimStart line.data) ||
        "# CELL".data.isPrefixOf (rustTrimStart line.data)) = _
    by_cases hlong : "# METADATA".data.isPrefixOf (rustTrimStart line.data)
    · have hshort : "# META".data.isPrefixOf (rustTrimStart line.data) := by
        rw [List.isPrefixOf_iff_prefix] at hlong ⊢
        exact List.IsPrefix.trans (by decide) hlong
      simp [hlong, hshort]
    · simp [hlong]

/-- C2 witness: the amended rule evaluated at a concrete metadata line. -/
theorem C2_strip_metadata_prefix_rule_witness :
    strip_notebook_metadata "  # META y" =
        (if is_metadata_line "  # META y" then "" else "  # META y")
    ∧ is_metadata_line "  # META y" =
        ("# META".data.isPrefixOf (rustTrimStart "  # META y".data) ||
          "# CELL".data.isPrefixOf (rustTrimStart "  # META y".data))
    ∧ is_metadata_line "# METALLICA" = true
    ∧ is_metadata_line "#METADATA" = false :=
  C2_strip_metadata_prefix_rule "  # META y" (by decide)

/-- C3 counterexample: the claim's fixed generic filename is
"generic-content.py", but the code special-cases "notebook-content.py", so
resolving "Sales.Notebook/generic-content.py" takes the general branch and
does not produce ("Sales", "Sales.py"). -/
theorem C3_generic_content_counterexample :
    determine_output_names "Sales.Notebook/generic-content.py" =
        some ("generic-content", "generic-content.py")
    ∧ determine_output_names "Sales.Notebook/generic-content.py" ≠
        some ("Sales", "Sales.py") :=
  ⟨by decide, by decide⟩

/-- C3 (amended): for every path with a filename the resolver returns the
pair (filename without extension, original filename), except when the
filename is exactly "notebook-content.py", in which case the parent
directory's name with the ".Notebook" suffix stripped becomes the stem and
the filename is the stem plus ".py" (with the generic stem as fallback when
no parent name is usable); in particular "x/y/report.py" resolves to
("report", "report.py") and "Sales.Notebook/notebook-content.py" to
("Sales", "Sales.py"). -/
theorem C3_determine_output_names_resolution (comps : List String) (f : String)
    (hf : comps.getLast? = some f) (hdot : f ≠ "..") :
    (f ≠ "notebook-content.py" →
      determine_output_names_comps comps = some (rust_file_stem f, f))
    ∧ (f = "notebook-content.py" →
      determine_output_names_comps comps =
        some (match comps.dropLast.getLast? with
          | some d =>
            if d = ".." then ("notebook-content", "notebook-content.py")
            else (trim_end_matches_notebook d,
              trim_end_matches_notebook d ++ ".py")
          | none => ("notebook-content", "notebook-content.py")))
    ∧ determine_output_names "x/y/report.py" = some ("report", "report.py")
    ∧ determine_output_names "Sales.Notebook/notebook-content.py" =
        some ("Sales", "Sales.py")
    ∧ determine_output_names "notebook-content.py" =
        some ("notebook-content", "notebook-content.py") := by
  refine ⟨?_, ?_, by decide, by decide, by decide⟩
  · intro hnc
    simp [determine_output_names_comps, hf, hdot, hnc]
  · intro hnc
    subst hnc
    rcases hp : comps.dropLast.getLast? with _ | d
    · simp [determine_output_names_comps, hf, hdot, hp]
      decide
    · by_cases hd : d = ".."
      · simp [determine_output_names_comps, hf, hdot, hp, hd]
        decide
      · simp [determine_output_names_comps, hf, hdot, hp, hd]

/-- C3 witness: the amended resolution rule evaluated on the component list
of "x/y/report.py". -/
theorem C3_determine_output_names_resolution_witness :
    (("report.py" : String) ≠ "notebook-content.py" →
      determine_output_names_comps ["x", "y", "report.py"] =
        some (rust_file_stem "report.py", "report.py"))
    ∧ (("report.py" : String) = "notebook-content.py" →
      determine_output_names_comps ["x", "y", "report.py"] =
        some (match (["x", "y", "report.py"] : List String).dropLast.getLast? with
          | some d =>
            if d = ".." then ("notebook-content", "notebook-content.py")
            else (trim_end_matches_notebook d,
              trim_end_matches_notebook d ++ ".py")
          | none => ("notebook-content", "notebook-content.py")))
    ∧ determine_output_names "x/y/report.py" = some ("report", "report.py")
    ∧ determine_output_names "Sales.Notebook/notebook-content.py" =
        some ("Sales", "Sales.py")
    ∧ determine_output_names "notebook-content.py" =
        some ("notebook-content", "notebook-content.py") :=
  C3_determine_output_names_resolution ["x", "y", "report.py"] "report.py"
    (by decide) (by decide)

/-- C4 counterexample: neither cleaning transform is idempotent on every
input, because a trailing line terminator is consumed by each pass:
stripping "\n\n" once keeps two empty lines and yields "\n", stripping again
yields ""; collapsing "a\n\n" once yields "a\n", collapsing again yields
"a". -/
theorem C4_idempotence_counterexample :
    strip_notebook_metadata (strip_notebook_metadata "\n\n") ≠
        strip_notebook_metadata "\n\n"
    ∧ collapse_blank_lines (collapse_blank_lines "a\n\n") ≠
        collapse_blank_lines "a\n\n" :=
  ⟨by decide, by decide⟩

/-- C4 (amended): both cleaning transforms are idempotent on every input
whose split/rejoin round trip is lossless: no line may end in a carriage
return, and the kept line list may not end in an empty line (a trailing line
terminator or trailing blank material breaks idempotence only by dropping
that trailing emptiness, as the counterexample shows); unconditionally,
collapse_blank_lines never increases the number of lines. -/
theorem C4_cleaners_idempotent_on_clean_input (s : String)
    (hcr : ∀ l ∈ rustLines s.data, l.getLast? ≠ some '\r')
    (h1 : ((rustLines s.data).filter
        (fun l => !is_metadata_line ⟨l⟩)).getLast? ≠ some [])
    (h2 : (collapse_lines (rustLines s.data)).getLast? ≠ some []) :
    strip_notebook_metadata (strip_notebook_metadata s) =
        strip_notebook_metadata s
    ∧ collapse_blank_lines (collapse_blank_lines s) = collapse_blank_lines s
    ∧ ∀ t : String,
        (rustLines (collapse_blank_lines t).data).length ≤
          (rustLines t.data).length := by
  refine ⟨?_, ?_, ?_⟩
  · have hks : rustLines (joinNL ((rustLines s.data).filter
        (fun l => !is_metadata_line ⟨l⟩))) =
        (rustLines s.data).filter (fun l => !is_metadata_line ⟨l⟩) := by
      apply rustLines_joinNL
      · intro l hl
        exact mem_rustLines_no_newline s.data l (List.mem_filter.mp hl).1
      · intro l hl
        exact hcr l (List.mem_filter.mp (List.mem_of_mem_dropLast hl)).1
      · exact h1
    show String.mk (joinNL ((rustLines (joinNL ((rustLines s.data).filter
        (fun l => !is_metadata_line ⟨l⟩)))).filter
        (fun l => !is_metadata_line ⟨l⟩))) = _
    rw [hks, List.filter_filter]
    simp only [Bool.and_self]
    rfl
  · have hsub : (collapse_lines (rustLines s.data)).Sublist
        (rustLines s.data) := by
      rw [collapse_lines_eq_spec]
      exact spec_sublist (rustLines s.data)
    have hcs : rustLines (joinNL (collapse_lines (rustLines s.data))) =
        collapse_lines (rustLines s.data) := by
      apply rustLines_joinNL
      · intro l hl
        exact mem_rustLines_no_newline s.data l (hsub.subset hl)
      · intro l hl
        exact hcr l (hsub.subset (List.mem_of_mem_dropLast hl))
      · exact h2
    show String.mk (joinNL (collapse_lines (rustLines (joinNL
        (collapse_lines (rustLines s.data)))))) = _
    rw [hcs, collapse_lines_eq_spec, collapse_lines_eq_spec, spec_idem,
      ← collapse_lines_eq_spec]
    rfl
  · intro t
    have hsub : (collapse_lines (rustLines t.data)).Sublist
        (rustLines t.data) := by
      rw [collapse_lines_eq_spec]
      exact spec_sublist (rustLines t.data)
    have hle1 : (rustLines (joinNL (collapse_lines (rustLines t.data)))).length ≤
        (collapse_lines (rustLines t.data)).length :=
      rustLines_joinNL_length_le _
        (fun l hl => mem_rustLines_no_newline t.data l (hsub.subset hl))
    exact hle1.trans hsub.length_le

/-- C4 witness: both idempotence halves and the line-count bound evaluated at
a concrete clean input. -/
theorem C4_cleaners_idempotent_witness :
    strip_notebook_metadata (strip_notebook_metadata "x\n\ny") =
        strip_notebook_metadata "x\n\ny"
    ∧ collapse_blank_lines (collapse_blank_lines "x\n\ny") =
        collapse_blank_lines "x\n\ny"
    ∧ ∀ t : String,
        (rustLines (collapse_blank_lines t).data).length ≤
          (rustLines t.data).length :=
  C4_cleaners_idempotent_on_clean_input "x\n\ny" (by decide) (by decide)
    (by decide)

/-- C5: collapse_blank_lines implements exactly the run-collapsing
description: the code's line loop equals the spec-level transform that
replaces every run of consecutive blank (empty or whitespace-only) lines by
the run's first line; the kept lines are a sublist of the input lines (so
surviving whitespace-only lines keep their original whitespace and nothing
is reordered), and the non-blank lines are preserved exactly. -/
theorem C5_collapse_blank_lines_run_semantics (s : String) :
    collapse_blank_lines s =
        ⟨joinNL (collapse_blank_runs_spec (rustLines s.data))⟩
    ∧ (collapse_blank_runs_spec (rustLines s.data)).Sublist (rustLines s.data)
    ∧ (collapse_blank_runs_spec (rustLines s.data)).filter
          (fun l => !is_blank_line l) =
        (rustLines s.data).filter (fun l => !is_blank_line l) := by
  refine ⟨?_, spec_sublist _, spec_filter_nonblank _⟩
  show String.mk (joinNL (collapse_lines (rustLines s.data))) = _
  rw [collapse_lines_eq_spec]

/-- C6: the Markdown renderer returns the fixed sentinel for an empty column
list regardless of rows, and otherwise renders exactly a header line, a
separator line of the same width, and one line per input row with cells
padded by the empty string and extra values dropped; the line count is
therefore two plus the number of rows. -/
theorem C6_markdown_table_rendering (cols : List String)
    (rows : List (List String)) :
    (∀ rs : List (List String),
      format_definitions_as_markdown_table [] rs =
        "[INF] - No definition rows returned.")
    ∧ format_definitions_as_markdown_table cols rows =
        render_markdown_table_spec cols rows
    ∧ (cols ≠ [] →
        (format_definitions_as_markdown_table cols rows).data.count '\n' =
          2 + rows.length) := by
  refine ⟨fun rs => rfl, format_table_eq_render_spec cols rows, ?_⟩
  intro hc
  have hce : cols.isEmpty = false := by
    simpa [List.isEmpty_iff] using hc
  rw [format_table_eq_render_spec cols rows, render_markdown_table_spec]
  simp only [hce, Bool.false_eq_true, if_false]
  have hcell : ∀ t : String, '\n' ∉ (" " ++ esc t ++ " |").data := by
    intro t hmem
    simp only [String.data_append] at hmem
    rcases List.mem_append.mp hmem with hm | hm
    · rcases List.mem_append.mp hm with hm2 | hm2
      · simp at hm2
      · exact esc_no_newline t hm2
    · simp at hm
  have hJ1 : (joinStrings (cols.map (fun c => " " ++ esc c ++ " |"))).data.count
      '\n' = 0 := by
    apply List.count_eq_zero.mpr
    apply joinStrings_data_no_mem
    intro x hx
    rcases List.mem_map.mp hx with ⟨c, _, rfl⟩
    exact hcell c
  have hJ2 : (joinStrings (cols.map
      (fun _ => (" --- |" : String)))).data.count '\n' = 0 := by
    apply List.count_eq_zero.mpr
    apply joinStrings_data_no_mem
    intro x hx
    rcases List.mem_map.mp hx with ⟨c, _, rfl⟩
    decide
  have hlit1 : ("|" : String).data.count '\n' = 0 := by decide
  have hlit2 : ("\n" : String).data.count '\n' = 1 := by decide
  have hrowchunk : ∀ r : List String,
      ("|" ++ joinStrings ((List.range cols.length).map (fun i =>
        " " ++ esc ((r.get? i).getD "") ++ " |")) ++ "\n").data.count '\n'
      = 1 := by
    intro r
    have hJr : (joinStrings ((List.range cols.length).map (fun i =>
        " " ++ esc ((r.get? i).getD "") ++ " |"))).data.count '\n' = 0 := by
      apply List.count_eq_zero.mpr
      apply joinStrings_data_no_mem
      intro x hx
      rcases List.mem_map.mp hx with ⟨i, _, rfl⟩
      exact hcell ((r.get? i).getD "")
    simp only [String.data_append, List.count_append, hJr, hlit1, hlit2]
  have hbody : (joinStrings (rows.map (fun r =>
      "|" ++ joinStrings ((List.range cols.length).map (fun i =>
        " " ++ esc ((r.get? i).getD "") ++ " |")) ++ "\n"))).data.count '\n'
      = rows.length := by
    rw [joinStrings_count]
    rw [List.map_map]
    have : rows.map ((fun s : String => s.data.count '\n') ∘ (fun r =>
        "|" ++ joinStrings ((List.range cols.length).map (fun i =>
          " " ++ esc ((r.get? i).getD "") ++ " |")) ++ "\n")) =
        rows.map (fun _ => 1) := by
      apply List.map_congr_left
      intro r _
      exact hrowchunk r
    rw [this]
    simp
  simp only [String.data_append, List.count_append, hJ1, hJ2, hbody, hlit1,
    hlit2]

/-- C7: in every rendered cell the escaper acts characterwise: each pipe
becomes a backslash-escaped pipe and each newline or carriage return becomes
a single space, so no escaped cell contains a newline or carriage return;
"a|b" renders with the pipe escaped, "l1\nl2\rl3" renders as "l1 l2 l3", and
a full table (header and body) shows the escaping in place. -/
theorem C7_cell_escaping (s : String) :
    (esc s).data = s.data.flatMap escCharSpec
    ∧ '\n' ∉ (esc s).data
    ∧ '\r' ∉ (esc s).data
    ∧ esc "a|b" = "a\\|b"
    ∧ esc "l1\nl2\rl3" = "l1 l2 l3"
    ∧ format_definitions_as_markdown_table ["name|raw", "description"]
          [["left|value", "line1\nline2\rline3"]] =
        "| name\\|raw | description |\n| --- | --- |\n| left\\|value | line1 line2 line3 |\n" :=
  ⟨esc_data s, esc_no_newline s, esc_no_cr s, by decide, by decide, by decide⟩

/-- C8: a token sequence holding exactly one non-selector, non-dash token and
at most one recognized selector parses successfully in either order, yielding
that token as the path and the selector's profile, or the Default profile
when no selector is present. -/
theorem C8_parse_path_and_selector (prog t s : String) (p : PromptProfile)
    (ht : parse_profile_selector t = none)
    (htd : starts_with_dash t = false)
    (hs : parse_profile_selector s = some p) :
    parse_cli_args [prog, t] = .ok ⟨t, .Default⟩
    ∧ parse_cli_args [prog, s, t] = .ok ⟨t, p⟩
    ∧ parse_cli_args [prog, t, s] = .ok ⟨t, p⟩ := by
  refine ⟨?_, ?_, ?_⟩
  · simp [parse_cli_args, parseArgsLoop, ht, htd]
  · simp [parse_cli_args, parseArgsLoop, ht, htd, hs]
  · simp [parse_cli_args, parseArgsLoop, ht, htd, hs]

/-- C8 witness: parsing evaluated on the unit tests' concrete tokens. -/
theorem C8_parse_path_and_selector_witness :
    parse_cli_args ["doxcer", "test/example.py"] =
        .ok ⟨"test/example.py", .Default⟩
    ∧ parse_cli_args ["doxcer", "-fabric", "test/example.py"] =
        .ok ⟨"test/example.py", .Fabric⟩
    ∧ parse_cli_args ["doxcer", "test/example.py", "-fabric"] =
        .ok ⟨"test/example.py", .Fabric⟩ :=
  C8_parse_path_and_selector "doxcer" "test/example.py" "-fabric" .Fabric
    (by decide) (by decide) (by decide)

/-- C9 counterexample: a sequence can contain two different recognized
selectors and still fail with a different error: with two path tokens first,
the multiple-paths error fires before the second selector is reached, so the
failure is not the conflicting-selectors error the claim requires. -/
theorem C9_conflict_error_counterexample :
    parse_profile_selector "-fabric" = some .Fabric
    ∧ parse_profile_selector "-synapse" = some .Synapse
    ∧ (PromptProfile.Fabric ≠ PromptProfile.Synapse)
    ∧ parse_cli_args ["doxcer", "a.py", "b.py", "-fabric", "-synapse"] =
        .error "[ERR] - Multiple input paths were provided: 'a.py' and 'b.py'."
    ∧ parse_cli_args ["doxcer", "a.py", "b.py", "-fabric", "-synapse"] ≠
        .error (conflict_message .Fabric .Synapse) :=
  ⟨by decide, by decide, by decide, by decide, by decide⟩

/-- C9 (amended): any sequence containing two selectors that map to different
profiles always fails with some error; it fails with the conflicting-
selectors error when the remaining tokens cannot trigger an earlier error (at
most one path-like token and no unknown dash token), in any order; and a
repeated identical selector token never conflicts: the sequence parses to the
path and that selector's profile. -/
theorem C9_conflicting_selectors (prog t s1 s2 : String) (p1 p2 : PromptProfile)
    (hs1 : parse_profile_selector s1 = some p1)
    (hs2 : parse_profile_selector s2 = some p2)
    (hne : p1 ≠ p2)
    (ht : parse_profile_selector t = none)
    (htd : starts_with_dash t = false) :
    (∀ args : List String, s1 ∈ args.drop 1 → s2 ∈ args.drop 1 →
      ∃ m, parse_cli_args args = .error m)
    ∧ parse_cli_args [prog, t, s1, s2] = .error (conflict_message p1 p2)
    ∧ parse_cli_args [prog, s1, t, s2] = .error (conflict_message p1 p2)
    ∧ parse_cli_args [prog, s1, s2, t] = .error (conflict_message p1 p2)
    ∧ parse_cli_args [prog, s1, s2] = .error (conflict_message p1 p2)
    ∧ parse_cli_args [prog, t, s1, s1] = .ok ⟨t, p1⟩
    ∧ parse_cli_args [prog, s1, t, s1] = .ok ⟨t, p1⟩ := by
  refine ⟨?_, ?_, ?_, ?_, ?_, ?_, ?_⟩
  · intro args hm1 hm2
    exact parse_cli_args_error_of_two_selectors args s1 s2 p1 p2 hm1 hm2
      hs1 hs2 hne
  · simp [parse_cli_args, parseArgsLoop, ht, htd, hs1, hs2, hne]
  · simp [parse_cli_args, parseArgsLoop, ht, htd, hs1, hs2, hne]
  · simp [parse_cli_args, parseArgsLoop, ht, htd, hs1, hs2, hne]
  · simp [parse_cli_args, parseArgsLoop, hs1, hs2, hne]
  · simp [parse_cli_args, parseArgsLoop, ht, htd, hs1]
  · simp [parse_cli_args, parseArgsLoop, ht, htd, hs1]

/-- C9 witness: the amended conflict behaviour evaluated on the concrete
fabric and synapse selectors. -/
theorem C9_conflicting_selectors_witness :
    (∀ args : List String, "-fabric" ∈ args.drop 1 → "-synapse" ∈ args.drop 1 →
      ∃ m, parse_cli_args args = .error m)
    ∧ parse_cli_args ["doxcer", "x.py", "-fabric", "-synapse"] =
        .error (conflict_message .Fabric .Synapse)
    ∧ parse_cli_args ["doxcer", "-fabric", "x.py", "-synapse"] =
        .error (conflict_message .Fabric .Synapse)
    ∧ parse_cli_args ["doxcer", "-fabric", "-synapse", "x.py"] =
        .error (conflict_message .Fabric .Synapse)
    ∧ parse_cli_args ["doxcer", "-fabric", "-synapse"] =
        .error (conflict_message .Fabric .Synapse)
    ∧ parse_cli_args ["doxcer", "x.py", "-fabric", "-fabric"] =
        .ok ⟨"x.py", .Fabric⟩
    ∧ parse_cli_args ["doxcer", "-fabric", "x.py", "-fabric"] =
        .ok ⟨"x.py", .Fabric⟩ :=
  C9_conflicting_selectors "doxcer" "x.py" "-fabric" "-synapse" .Fabric .Synapse
    (by decide) (by decide) (by decide) (by decide) (by decide)

/-- C10: both cleaners normalize line terminators: a text written with CRLF
separators cleans to the same result as the same lines written with bare LF
separators (the carriage return of a CRLF terminator never reaches the
output), a single trailing line terminator is not preserved, and in
particular collapse_blank_lines and strip_notebook_metadata both send
"a\r\nb\n" to "a\nb". -/
theorem C10_line_terminator_normalization :
    (∀ ls : List (List Char),
      (∀ l ∈ ls, '\n' ∉ l ∧ l.getLast? ≠ some '\r') →
      strip_notebook_metadata ⟨joinCRLF ls⟩ = strip_notebook_metadata ⟨joinNL ls⟩
      ∧ collapse_blank_lines ⟨joinCRLF ls⟩ = collapse_blank_lines ⟨joinNL ls⟩)
    ∧ (∀ ls : List (List Char), ls ≠ [] →
      (∀ l ∈ ls, '\n' ∉ l ∧ l.getLast? ≠ some '\r') →
      ls.getLast? ≠ some [] →
      strip_notebook_metadata ⟨joinNL ls ++ ['\n']⟩ =
        strip_notebook_metadata ⟨joinNL ls⟩
      ∧ collapse_blank_lines ⟨joinNL ls ++ ['\n']⟩ =
        collapse_blank_lines ⟨joinNL ls⟩)
    ∧ collapse_blank_lines "a\r\nb\n" = "a\nb"
    ∧ strip_notebook_metadata "a\r\nb\n" = "a\nb" := by
  refine ⟨?_, ?_, by decide, by decide⟩
  · intro ls h
    have heq : rustLines (joinCRLF ls) = rustLines (joinNL ls) :=
      rustLines_joinCRLF ls (fun l hl => (h l hl).1) (fun l hl => (h l hl).2)
    constructor
    · show String.mk (joinNL ((rustLines (joinCRLF ls)).filter
          (fun l => !is_metadata_line ⟨l⟩))) = _
      rw [heq]
      rfl
    · show String.mk (joinNL (collapse_lines (rustLines (joinCRLF ls)))) = _
      rw [heq]
      rfl
  · intro ls h0 h hlast
    have he1 : rustLines (joinNL ls ++ ['\n']) = ls :=
      rustLines_joinNL_append_nl ls h0 (fun l hl => (h l hl).1)
        (fun l hl => (h l hl).2)
    have he2 : rustLines (joinNL ls) = ls :=
      rustLines_joinNL ls (fun l hl => (h l hl).1)
        (fun l hl => (h l (List.mem_of_mem_dropLast hl)).2) hlast
    constructor
    · have hL : strip_notebook_metadata ⟨joinNL ls ++ ['\n']⟩ =
          String.mk (joinNL (ls.filter (fun l => !is_metadata_line ⟨l⟩))) := by
        show String.mk (joinNL ((rustLines (joinNL ls ++ ['\n'])).filter
          (fun l => !is_metadata_line ⟨l⟩))) = _
        rw [he1]
      have hR : strip_notebook_metadata ⟨joinNL ls⟩ =
          String.mk (joinNL (ls.filter (fun l => !is_metadata_line ⟨l⟩))) := by
        show String.mk (joinNL ((rustLines (joinNL ls)).filter
          (fun l => !is_metadata_line ⟨l⟩))) = _
        rw [he2]
      rw [hL, hR]
    · have hL : collapse_blank_lines ⟨joinNL ls ++ ['\n']⟩ =
          String.mk (joinNL (collapse_lines ls)) := by
        show String.mk (joinNL (collapse_lines
          (rustLines (joinNL ls ++ ['\n'])))) = _
        rw [he1]
      have hR : collapse_blank_lines ⟨joinNL ls⟩ =
          String.mk (joinNL (collapse_lines ls)) := by
        show String.mk (joinNL (collapse_lines (rustLines (joinNL ls)))) = _
        rw [he2]
      rw [hL, hR]

end Doxcer
